import Mathlib

/-!
Verification of the repository-inspection core (`src/git.rs`) of a shell
prompt renderer: discovery of the `.git` metadata directory, parsing of
`git status --porcelain` output, detection of the in-progress operation
from marker files, and per-fact memoized accessors on a `Repository`.

The filesystem and the external `git` binary are abstracted as oracles
(`GitFS`, `GitEnv`); everything the Rust code computes from their answers
is embedded as executable Lean functions that follow the source line by
line.
-/

namespace Starship

/-! ## Characters, trimming and unsigned-integer parsing -/

/-- The Unicode White_Space property, as Rust's `char::is_whitespace`
(used by `str::trim` and `str::trim_end`). -/
def isRustWhitespace (c : Char) : Bool :=
  let n := c.toNat
  n == 0x20 || (0x9 ≤ n && n ≤ 0xD) || n == 0x85 || n == 0xA0 || n == 0x1680 ||
    (0x2000 ≤ n && n ≤ 0x200A) || n == 0x2028 || n == 0x2029 || n == 0x202F ||
    n == 0x205F || n == 0x3000

/-- Rust `str::trim_end` on a character list. -/
def trimEndList (cs : List Char) : List Char :=
  (cs.reverse.dropWhile isRustWhitespace).reverse

/-- Rust `str::trim` on a character list. -/
def trimList (cs : List Char) : List Char :=
  trimEndList (cs.dropWhile isRustWhitespace)

def isAsciiDigit (c : Char) : Bool := '0' ≤ c && c ≤ '9'

def digitsToNat (cs : List Char) : Nat :=
  cs.foldl (fun a c => a * 10 + (c.toNat - 48)) 0

/-- Rust `str::parse::<usize>`: an optional leading `+`, then one or more
ASCII digits, rejecting values that overflow a 64-bit `usize`. -/
def parseUsize (cs : List Char) : Option Nat :=
  let ds := match cs with
    | '+' :: rest => rest
    | _ => cs
  if !ds.isEmpty && ds.all isAsciiDigit then
    let v := digitsToNat ds
    if v < 2 ^ 64 then some v else none
  else none

/-! ## Data model (`GitStatus`, `GitState`, `RebaseProgress`, `Remote`) -/

/-- `GitStatus`: the aggregate counters, all zero by `Default`. -/
structure GitStatus where
  untracked : Nat := 0
  added : Nat := 0
  modified : Nat := 0
  renamed : Nat := 0
  deleted : Nat := 0
  stashed : Nat := 0
  unmerged : Nat := 0
  ahead : Nat := 0
  behind : Nat := 0
  diverged : Nat := 0
  conflicted : Nat := 0
  staged : Nat := 0
deriving DecidableEq

/-- `RebaseProgress { current, total }`. -/
structure RebaseProgress where
  current : Nat
  total : Nat
deriving DecidableEq

/-- `impl Default for RebaseProgress`: `{ current: 1, total: 1 }`. -/
def RebaseProgress.default : RebaseProgress := ⟨1, 1⟩

/-- The `GitState` enum. -/
inductive GitState where
  | Clean
  | Merge
  | Revert
  | CherryPick
  | Bisect
  | ApplyMailboxOrRebase
  | ApplyMailbox (progress : RebaseProgress)
  | Rebase (progress : RebaseProgress)
deriving DecidableEq

/-- `Remote { name, branch }`. -/
structure Remote where
  name : String
  branch : String
deriving DecidableEq

/-! ## Status parser (`parse_porcelain_output`, `increment_git_status`) -/

/-- `increment_git_status`: bump the counter selected by a short-format
status letter; any other letter changes nothing. -/
def increment_git_status (s : GitStatus) (letter : Char) : GitStatus :=
  if letter = 'A' then { s with added := s.added + 1 }
  else if letter = 'M' then { s with modified := s.modified + 1 }
  else if letter = 'D' then { s with deleted := s.deleted + 1 }
  else if letter = 'R' then { s with renamed := s.renamed + 1 }
  else if letter = 'C' then { s with added := s.added + 1 }
  else if letter = 'U' then { s with modified := s.modified + 1 }
  else if letter = '?' then { s with untracked := s.untracked + 1 }
  else s

/-- Rust `str::lines`, accumulator-based: lines are split at `\n`, a `\r`
immediately before a split `\n` is stripped, and the final line ending is
optional. -/
def rustLinesAux : List Char → List Char → List (List Char)
  | [], acc => if acc.isEmpty then [] else [acc.reverse]
  | '\n' :: rest, acc =>
      (if acc.head? = some '\r' then acc.tail.reverse else acc.reverse) ::
        rustLinesAux rest []
  | c :: rest, acc => rustLinesAux rest (c :: acc)

def rustLines (s : String) : List (List Char) := rustLinesAux s.data []

/-- The body of the `for_each` in `parse_porcelain_output`: extract the
first two characters of the line (padded with spaces), increment
`conflicted` when they are equal, otherwise classify `'S'` and then the
second character. -/
def processLine (s : GitStatus) (line : List Char) : GitStatus :=
  if line.headD ' ' = line.tail.headD ' ' then { s with conflicted := s.conflicted + 1 }
  else increment_git_status (increment_git_status s 'S') (line.tail.headD ' ')

/-- `parse_porcelain_output`. -/
def parse_porcelain_output (s : String) : GitStatus :=
  (rustLines s).foldl processLine {}

/-! ## Oracles for the filesystem and the external tool -/

/-- Modelled from the spec: the filesystem surface the core consumes (§6) —
existence checks of marker paths under the metadata directory and
read-to-string of small files (`utils::read_file` is not among the staged
sources, so a read is an oracle answering `none` on any I/O failure).
Paths are given relative to the metadata (`.git`) directory. -/
structure GitFS where
  pathExists : String → Bool
  readFile : String → Option String

/-- Modelled from the spec: the Command Executor collaborator (§6,
`utils::exec_cmd`) — runs the external tool with an argument list and
returns captured stdout, or `none` uniformly for every failure mode. -/
structure GitEnv where
  exec : List String → Option String

def statusArgs : List String := ["status", "--porcelain"]

def remoteArgs : List String := ["rev-parse", "--symbolic-full-name", "HEAD@\x7bu\x7d"]

def hashArgs : List String := ["rev-parse", "HEAD"]

/-! ## State detection (`Repository::get_state`) -/

/-- The `file_to_usize` closure: read the marker file and parse its trimmed
contents as a `usize`. -/
def file_to_usize (fs : GitFS) (relative_path : String) : Option Nat :=
  (fs.readFile relative_path).bind fun contents => parseUsize (trimList contents.data)

/-- The `paths_to_rebase_progress` closure. -/
def paths_to_rebase_progress (fs : GitFS) (current_path total_path : String) :
    Option RebaseProgress :=
  (file_to_usize fs current_path).bind fun current =>
    (file_to_usize fs total_path).map fun total => ⟨current, total⟩

/-- `Repository::get_state`: the marker tests in source order. -/
def get_state (fs : GitFS) : GitState :=
  if fs.pathExists "MERGE_HEAD" then GitState.Merge
  else if fs.pathExists "BISECT_LOG" then GitState.Bisect
  else if fs.pathExists "rebase-merge" then
    GitState.Rebase
      ((paths_to_rebase_progress fs "rebase-merge/msgnum" "rebase-merge/end").getD
        RebaseProgress.default)
  else if fs.pathExists "rebase-apply" then
    let progress := paths_to_rebase_progress fs "rebase-apply/next" "rebase-apply/last"
    if fs.pathExists "rebase-apply/rebasing" then
      GitState.Rebase (progress.getD RebaseProgress.default)
    else if fs.pathExists "rebase-apply/applying" then
      GitState.ApplyMailbox (progress.getD RebaseProgress.default)
    else GitState.ApplyMailboxOrRebase
  else GitState.Clean

/-! ## Underlying fact computations -/

/-- `Repository::get_status`: a failed invocation degrades to the all-zero
status, otherwise the stdout is fed to the porcelain parser. -/
def get_status (env : GitEnv) : GitStatus :=
  match env.exec statusArgs with
  | some output => parse_porcelain_output output
  | none => {}

/-- The contents after the last `/`, when one occurs: `rfind('/')` followed
by the slice `[i + 1 ..]`. -/
def afterLastSlash (cs : List Char) : Option (List Char) :=
  if cs.contains '/' then some (cs.reverse.takeWhile (fun c => c ≠ '/')).reverse
  else none

/-- Split at the first occurrence of `sep`: `none` when `sep` is absent. -/
def breakAtSep (sep : Char) : List Char → Option (List Char × List Char)
  | [] => none
  | c :: rest =>
    if c = sep then some ([], rest)
    else (breakAtSep sep rest).map fun p => (c :: p.1, p.2)

/-- Rust `str::splitn(n, sep)` on a character list: at most `n` parts, the
last part keeping every remaining separator. -/
def splitnCore : Nat → Char → List Char → List (List Char)
  | 0, _, _ => []
  | 1, _, cs => [cs]
  | n + 2, sep, cs =>
    match breakAtSep sep cs with
    | none => [cs]
    | some (before, after) => before :: splitnCore (n + 1) sep after

def splitn (n : Nat) (sep : Char) (s : String) : List String :=
  (splitnCore n sep s.data).map fun cs => String.mk cs

/-- `Repository::get_remote`: `splitn(4, '/')` then `nth(2)` for the name
and `last()` of the remaining iterator for the branch. -/
def get_remote (env : GitEnv) : Option Remote :=
  match env.exec remoteArgs with
  | none => none
  | some stdout =>
    if stdout = "" then none
    else
      let elements := splitn 4 '/' stdout
      match elements[2]? with
      | none => none
      | some name =>
        match (elements.drop 3).getLast? with
        | none => none
        | some branch => some ⟨name, branch⟩

/-- `Repository::get_commit_hash`: the raw stdout of `rev-parse HEAD`. -/
def get_commit_hash (env : GitEnv) : Option String := env.exec hashArgs

/-- `Repository::get_commit_tag`: unimplemented upstream, always absent. -/
def get_commit_tag : Option String := none

/-! ## Memoized accessors (`OnceCell` fields of `Repository`) -/

/-- The cache cells of one `Repository` instance, plus instrumentation:
`…Runs` counts how many times each underlying computation actually ran. -/
structure RepoCaches where
  branchCell : Option String := none
  statusCell : Option GitStatus := none
  stateCell : Option GitState := none
  hashCell : Option (Option String) := none
  remoteCell : Option (Option Remote) := none
  tagCell : Option (Option String) := none
  branchRuns : Nat := 0
  statusRuns : Nat := 0
  stateRuns : Nat := 0
  hashRuns : Nat := 0
  remoteRuns : Nat := 0
  tagRuns : Nat := 0
deriving DecidableEq

/-- `OnceCell::set` on the hash cell: stores only when the cell is still
empty (the source ignores the `Err` of a full cell). -/
def setHashCell (r : RepoCaches) (v : Option String) : RepoCaches :=
  match r.hashCell with
  | some _ => r
  | none => { r with hashCell := some v }

/-- `Repository::get_branch`: read `HEAD`; with a slash, the branch is the
right-trimmed text after the last slash; without one the contents are a raw
hash, seeded into the (not yet computed) hash cell. -/
def get_branch (fs : GitFS) (r : RepoCaches) : Option String × RepoCaches :=
  match fs.readFile "HEAD" with
  | none => (none, r)
  | some head_contents =>
    match afterLastSlash head_contents.data with
    | some branch_name => (some (String.mk (trimEndList branch_name)), r)
    | none => (none, setHashCell r (some head_contents))

/-- `Repository::branch`: `get_or_init` with fallback label `"HEAD"`. -/
def Repository.branch (fs : GitFS) (r : RepoCaches) : String × RepoCaches :=
  match r.branchCell with
  | some v => (v, r)
  | none =>
    let p := get_branch fs r
    let v := p.1.getD "HEAD"
    (v, { p.2 with branchCell := some v, branchRuns := p.2.branchRuns + 1 })

/-- `Repository::status`: `get_or_init(get_status)`. -/
def Repository.status (env : GitEnv) (r : RepoCaches) : GitStatus × RepoCaches :=
  match r.statusCell with
  | some v => (v, r)
  | none =>
    let v := get_status env
    (v, { r with statusCell := some v, statusRuns := r.statusRuns + 1 })

/-- `Repository::state`: `get_or_init(get_state)`. -/
def Repository.state (fs : GitFS) (r : RepoCaches) : GitState × RepoCaches :=
  match r.stateCell with
  | some v => (v, r)
  | none =>
    let v := get_state fs
    (v, { r with stateCell := some v, stateRuns := r.stateRuns + 1 })

/-- `Repository::commit_hash`: `get_or_init(get_commit_hash)`. -/
def Repository.commit_hash (env : GitEnv) (r : RepoCaches) :
    Option String × RepoCaches :=
  match r.hashCell with
  | some v => (v, r)
  | none =>
    let v := get_commit_hash env
    (v, { r with hashCell := some v, hashRuns := r.hashRuns + 1 })

/-- `Repository::remote`: `get_or_init(get_remote)`. -/
def Repository.remote (env : GitEnv) (r : RepoCaches) : Option Remote × RepoCaches :=
  match r.remoteCell with
  | some v => (v, r)
  | none =>
    let v := get_remote env
    (v, { r with remoteCell := some v, remoteRuns := r.remoteRuns + 1 })

/-- `Repository::commit_tag`: `get_or_init(get_commit_tag)`. -/
def Repository.commit_tag (r : RepoCaches) : Option String × RepoCaches :=
  match r.tagCell with
  | some v => (v, r)
  | none =>
    let v := get_commit_tag
    (v, { r with tagCell := some v, tagRuns := r.tagRuns + 1 })

/-! ## Discovery (`Repository::discover` / `Repository::scan`)

An absolute directory path is a list of components, deepest first, so the
filesystem root is `[]` and `Path::parent` is the list tail (`none` at the
root). `path.join(".git")` prepends the component `".git"`. -/

/-- The two path fields of a discovered `Repository`. -/
structure RepoPaths where
  git_dir : List String
  root_dir : List String
deriving DecidableEq

/-- `Repository::scan`: a `Repository` at `path` when `path/.git` exists. -/
def scan (w : List String → Bool) (path : List String) : Option RepoPaths :=
  let git_dir := ".git" :: path
  if w git_dir then some ⟨git_dir, path⟩ else none

/-- `Repository::discover`: scan the path, then recurse on the parent. -/
def discover (w : List String → Bool) : List String → Option RepoPaths
  | [] => scan w []
  | d :: parent =>
    match scan w (d :: parent) with
    | some repository => some repository
    | none => discover w parent

/-! ## Helper lemmas -/

/-- `increment_git_status` touches only the seven counters of its category
table: stashed, unmerged, ahead, behind, diverged, staged and conflicted
are preserved for every letter. -/
theorem increment_preserves (s : GitStatus) (c : Char) :
    (increment_git_status s c).stashed = s.stashed ∧
    (increment_git_status s c).unmerged = s.unmerged ∧
    (increment_git_status s c).ahead = s.ahead ∧
    (increment_git_status s c).behind = s.behind ∧
    (increment_git_status s c).diverged = s.diverged ∧
    (increment_git_status s c).staged = s.staged ∧
    (increment_git_status s c).conflicted = s.conflicted := by
  unfold increment_git_status
  repeat' split
  all_goals simp

/-- One porcelain line never changes the stashed, unmerged, ahead, behind,
diverged or staged counters. -/
theorem processLine_preserves (st : GitStatus) (l : List Char) :
    (processLine st l).stashed = st.stashed ∧
    (processLine st l).unmerged = st.unmerged ∧
    (processLine st l).ahead = st.ahead ∧
    (processLine st l).behind = st.behind ∧
    (processLine st l).diverged = st.diverged ∧
    (processLine st l).staged = st.staged := by
  unfold processLine
  split
  · simp
  · have h1 := increment_preserves (increment_git_status st 'S') (l.tail.headD ' ')
    have h2 := increment_preserves st 'S'
    exact ⟨h1.1.trans h2.1, h1.2.1.trans h2.2.1, h1.2.2.1.trans h2.2.2.1,
      h1.2.2.2.1.trans h2.2.2.2.1, h1.2.2.2.2.1.trans h2.2.2.2.2.1,
      h1.2.2.2.2.2.1.trans h2.2.2.2.2.2.1⟩

theorem foldl_processLine_preserves (lines : List (List Char)) (st : GitStatus) :
    (lines.foldl processLine st).stashed = st.stashed ∧
    (lines.foldl processLine st).unmerged = st.unmerged ∧
    (lines.foldl processLine st).ahead = st.ahead ∧
    (lines.foldl processLine st).behind = st.behind ∧
    (lines.foldl processLine st).diverged = st.diverged ∧
    (lines.foldl processLine st).staged = st.staged := by
  induction lines generalizing st with
  | nil => exact ⟨rfl, rfl, rfl, rfl, rfl, rfl⟩
  | cons l ls ih =>
    have hstep := processLine_preserves st l
    have hrest := ih (processLine st l)
    simp only [List.foldl_cons]
    exact ⟨hrest.1.trans hstep.1, hrest.2.1.trans hstep.2.1,
      hrest.2.2.1.trans hstep.2.2.1, hrest.2.2.2.1.trans hstep.2.2.2.1,
      hrest.2.2.2.2.1.trans hstep.2.2.2.2.1, hrest.2.2.2.2.2.trans hstep.2.2.2.2.2⟩

/-! ## Claims about the status parser -/

/-- Claim C2 (the code disagrees with it): on the input
`"M a\nMM b\nA c\n? d"` the parser returns `conflicted = 1` with every
other counter zero — `"MM b"` has equal leading letters and goes to the
conflicted branch, while the other three lines classify their second
character (a space), which maps to no counter. The claimed result
(modified = 2, added = 1, untracked = 1) is refuted. -/
theorem parse_porcelain_claimed_input :
    parse_porcelain_output "M a\nMM b\nA c\n? d" = { conflicted := 1 } ∧
    parse_porcelain_output "M a\nMM b\nA c\n? d" ≠
      { modified := 2, added := 1, untracked := 1 } := by
  constructor
  · decide
  · decide

/-- Claim C3 counterexample: the single-line input `" "` has two equal
*space* leading characters (one literal, one padding); the claim says such
a line is not classified as conflicted, yet the parser increments
`conflicted` to 1. -/
theorem conflicted_space_line_counterexample :
    (parse_porcelain_output " ").conflicted = 1 := by decide

/-- Claim C3 (amended): a line bumps `conflicted` by exactly one and
leaves every other counter unchanged **iff** its first two characters
(padded with a space when the line is shorter than two characters) are
equal — whether or not they are spaces; a line with two equal leading
spaces is also classified as conflicted. -/
theorem processLine_conflicted_iff (st : GitStatus) (line : List Char) :
    processLine st line = { st with conflicted := st.conflicted + 1 } ↔
      line.headD ' ' = line.tail.headD ' ' := by
  unfold processLine
  by_cases h : line.headD ' ' = line.tail.headD ' '
  · rw [if_pos h]
    constructor
    · intro _
      exact h
    · intro _
      rfl
  · have hc : (increment_git_status (increment_git_status st 'S')
        (line.tail.headD ' ')).conflicted = st.conflicted := by
      have h1 := increment_preserves (increment_git_status st 'S') (line.tail.headD ' ')
      have h2 := increment_preserves st 'S'
      exact h1.2.2.2.2.2.2.trans h2.2.2.2.2.2.2
    rw [if_neg h]
    constructor
    · intro heq
      exfalso
      have hcc := congrArg GitStatus.conflicted heq
      rw [hc] at hcc
      simp at hcc
    · intro hcond
      exact absurd hcond h

/-- Claim C10: for every input string, the porcelain parser leaves the
staged, stashed, unmerged, ahead, behind and diverged counters at zero —
no line ever increments them. -/
theorem parse_porcelain_untouched_counters (s : String) :
    (parse_porcelain_output s).staged = 0 ∧
    (parse_porcelain_output s).stashed = 0 ∧
    (parse_porcelain_output s).unmerged = 0 ∧
    (parse_porcelain_output s).ahead = 0 ∧
    (parse_porcelain_output s).behind = 0 ∧
    (parse_porcelain_output s).diverged = 0 := by
  have h := foldl_processLine_preserves (rustLines s) {}
  unfold parse_porcelain_output
  exact ⟨h.2.2.2.2.2, h.1, h.2.1, h.2.2.1, h.2.2.2.1, h.2.2.2.2.1⟩

/-! ## Claims about state detection -/

/-- The `let progress := …` binding in `get_state` zeta-reduced, for use by
`split`. -/
theorem get_state_eq (fs : GitFS) :
    get_state fs =
      (if fs.pathExists "MERGE_HEAD" then GitState.Merge
      else if fs.pathExists "BISECT_LOG" then GitState.Bisect
      else if fs.pathExists "rebase-merge" then
        GitState.Rebase
          ((paths_to_rebase_progress fs "rebase-merge/msgnum" "rebase-merge/end").getD
            RebaseProgress.default)
      else if fs.pathExists "rebase-apply" then
        if fs.pathExists "rebase-apply/rebasing" then
          GitState.Rebase
            ((paths_to_rebase_progress fs "rebase-apply/next" "rebase-apply/last").getD
              RebaseProgress.default)
        else if fs.pathExists "rebase-apply/applying" then
          GitState.ApplyMailbox
            ((paths_to_rebase_progress fs "rebase-apply/next" "rebase-apply/last").getD
              RebaseProgress.default)
        else GitState.ApplyMailboxOrRebase
      else GitState.Clean) := rfl

/-- Claim C1: the marker tests are applied in strict precedence order with
the first match winning; the merge marker dominates everything (also when
the bisect marker is present at the same time), the classic-apply directory
is sub-classified by its `rebasing`/`applying` markers, no marker at all
yields `Clean`, and no metadata-directory contents ever produce `Revert`
or `CherryPick`. -/
theorem get_state_precedence (fs : GitFS) :
    (fs.pathExists "MERGE_HEAD" = true → get_state fs = GitState.Merge) ∧
    (fs.pathExists "MERGE_HEAD" = true → fs.pathExists "BISECT_LOG" = true →
      get_state fs = GitState.Merge) ∧
    (fs.pathExists "MERGE_HEAD" = false → fs.pathExists "BISECT_LOG" = true →
      get_state fs = GitState.Bisect) ∧
    (fs.pathExists "MERGE_HEAD" = false → fs.pathExists "BISECT_LOG" = false →
      fs.pathExists "rebase-merge" = true →
      ∃ p, get_state fs = GitState.Rebase p) ∧
    (fs.pathExists "MERGE_HEAD" = false → fs.pathExists "BISECT_LOG" = false →
      fs.pathExists "rebase-merge" = false → fs.pathExists "rebase-apply" = true →
      fs.pathExists "rebase-apply/rebasing" = true →
      ∃ p, get_state fs = GitState.Rebase p) ∧
    (fs.pathExists "MERGE_HEAD" = false → fs.pathExists "BISECT_LOG" = false →
      fs.pathExists "rebase-merge" = false → fs.pathExists "rebase-apply" = true →
      fs.pathExists "rebase-apply/rebasing" = false →
      fs.pathExists "rebase-apply/applying" = true →
      ∃ p, get_state fs = GitState.ApplyMailbox p) ∧
    (fs.pathExists "MERGE_HEAD" = false → fs.pathExists "BISECT_LOG" = false →
      fs.pathExists "rebase-merge" = false → fs.pathExists "rebase-apply" = true →
      fs.pathExists "rebase-apply/rebasing" = false →
      fs.pathExists "rebase-apply/applying" = false →
      get_state fs = GitState.ApplyMailboxOrRebase) ∧
    (fs.pathExists "MERGE_HEAD" = false → fs.pathExists "BISECT_LOG" = false →
      fs.pathExists "rebase-merge" = false → fs.pathExists "rebase-apply" = false →
      get_state fs = GitState.Clean) ∧
    get_state fs ≠ GitState.Revert ∧ get_state fs ≠ GitState.CherryPick := by
  rw [get_state_eq]
  refine ⟨?_, ?_, ?_, ?_, ?_, ?_, ?_, ?_, ?_, ?_⟩
  · intro h1
    simp [h1]
  · intro h1 _
    simp [h1]
  · intro h1 h2
    simp [h1, h2]
  · intro h1 h2 h3
    exact ⟨(paths_to_rebase_progress fs "rebase-merge/msgnum" "rebase-merge/end").getD
      RebaseProgress.default, by simp [h1, h2, h3]⟩
  · intro h1 h2 h3 h4 h5
    exact ⟨(paths_to_rebase_progress fs "rebase-apply/next" "rebase-apply/last").getD
      RebaseProgress.default, by simp [h1, h2, h3, h4, h5]⟩
  · intro h1 h2 h3 h4 h5 h6
    exact ⟨(paths_to_rebase_progress fs "rebase-apply/next" "rebase-apply/last").getD
      RebaseProgress.default, by simp [h1, h2, h3, h4, h5, h6]⟩
  · intro h1 h2 h3 h4 h5 h6
    simp [h1, h2, h3, h4, h5, h6]
  · intro h1 h2 h3 h4
    simp [h1, h2, h3, h4]
  · repeat' split
    all_goals simp
  · repeat' split
    all_goals simp

/-- A metadata directory whose `rebase-merge` counter files read `"0"` and
`"5"`. -/
def fsZero : GitFS :=
  ⟨fun p => p == "rebase-merge",
   fun p =>
     if p == "rebase-merge/msgnum" then some "0"
     else if p == "rebase-merge/end" then some "5" else none⟩

/-- Claim C4 counterexample: with the interactive-rebase directory present
and counter files containing `"0"` and `"5"`, detection produces the
progress `{current := 0, total := 5}` — `current ≥ 1` fails, because a
successfully parsed counter is used verbatim, zero included. -/
theorem rebase_progress_zero_counterexample :
    get_state fsZero = GitState.Rebase ⟨0, 5⟩ ∧ ¬ 1 ≤ (RebaseProgress.mk 0 5).current := by
  constructor
  · decide
  · decide

/-- Claim C4 (amended): every progress payload carried by a `Rebase` or
`ApplyMailbox` state equals `(paths_to_rebase_progress …).getD {1,1}` for
one of the two marker-file pairs: the default `{1,1}` (whose components
are ≥ 1) exactly when the counters cannot be determined, and otherwise the
parsed values verbatim, which may be 0. -/
theorem state_progress_characterization (fs : GitFS) (p : RebaseProgress)
    (h : get_state fs = GitState.Rebase p ∨ get_state fs = GitState.ApplyMailbox p) :
    p = (paths_to_rebase_progress fs "rebase-merge/msgnum" "rebase-merge/end").getD
        RebaseProgress.default ∨
    p = (paths_to_rebase_progress fs "rebase-apply/next" "rebase-apply/last").getD
        RebaseProgress.default := by
  rw [get_state_eq] at h
  rcases h with h | h <;> [skip; skip] <;>
    · repeat' split at h
      all_goals simp_all

/-- A metadata directory with only the interactive-rebase directory and no
readable file at all. -/
def fsRM : GitFS := ⟨fun p => p == "rebase-merge", fun _ => none⟩

theorem state_progress_characterization_witness :
    RebaseProgress.default =
      (paths_to_rebase_progress fsRM "rebase-merge/msgnum" "rebase-merge/end").getD
        RebaseProgress.default ∨
    RebaseProgress.default =
      (paths_to_rebase_progress fsRM "rebase-apply/next" "rebase-apply/last").getD
        RebaseProgress.default :=
  state_progress_characterization fsRM RebaseProgress.default (Or.inl (by decide))

/-- Claim C5: when the earlier markers are absent, the classic-apply
directory and its `rebasing` marker exist, and reading or parsing the
`next` or `last` counter file fails, the state is `Rebase` with exactly
the default progress `{1,1}` — the failure degrades only the counters,
never the coarse classification. -/
theorem rebase_apply_default_progress (fs : GitFS)
    (hm : fs.pathExists "MERGE_HEAD" = false)
    (hb : fs.pathExists "BISECT_LOG" = false)
    (hrm : fs.pathExists "rebase-merge" = false)
    (hra : fs.pathExists "rebase-apply" = true)
    (hreb : fs.pathExists "rebase-apply/rebasing" = true)
    (hfail : file_to_usize fs "rebase-apply/next" = none ∨
      file_to_usize fs "rebase-apply/last" = none) :
    get_state fs = GitState.Rebase ⟨1, 1⟩ := by
  have hp : paths_to_rebase_progress fs "rebase-apply/next" "rebase-apply/last" = none := by
    unfold paths_to_rebase_progress
    rcases hfail with h | h
    · rw [h]
      rfl
    · cases hnext : file_to_usize fs "rebase-apply/next" <;> simp [h, hnext]
  rw [get_state_eq]
  simp [hm, hb, hrm, hra, hreb, hp, RebaseProgress.default]

/-- A metadata directory with only the classic-apply directory and its
`rebasing` marker, every read failing. -/
def fsRA : GitFS :=
  ⟨fun p => p == "rebase-apply" || p == "rebase-apply/rebasing", fun _ => none⟩

theorem rebase_apply_default_progress_witness :
    get_state fsRA = GitState.Rebase ⟨1, 1⟩ :=
  rebase_apply_default_progress fsRA (by decide) (by decide) (by decide) (by decide)
    (by decide) (Or.inl (by decide))

/-! ## Claims about the branch / hash accessors -/

def isAsciiHexDigit (c : Char) : Bool :=
  ('0' ≤ c && c ≤ '9') || ('a' ≤ c && c ≤ 'f') || ('A' ≤ c && c ≤ 'F')

/-- Claim C6: when the head-reference file holds a 40-character hex string
with no slash, the branch accessor returns the fallback label `"HEAD"` and
seeds the commit-hash cache with the raw contents, so a subsequent
`commit_hash` call returns that same string without running the external
tool (the hash-run counter is unchanged). -/
theorem detached_head_seeds_hash (fs : GitFS) (env : GitEnv) (r : RepoCaches)
    (s : String)
    (hhead : fs.readFile "HEAD" = some s)
    (_hlen : s.length = 40)
    (_hhex : s.data.all isAsciiHexDigit = true)
    (hnoslash : s.data.contains '/' = false)
    (hbr : r.branchCell = none)
    (hh : r.hashCell = none) :
    (Repository.branch fs r).1 = "HEAD" ∧
    (Repository.commit_hash env (Repository.branch fs r).2).1 = some s ∧
    (Repository.commit_hash env (Repository.branch fs r).2).2.hashRuns = r.hashRuns := by
  have hslash : afterLastSlash s.data = none := by
    unfold afterLastSlash
    rw [hnoslash]
    simp
  have hbranch : get_branch fs r = (none, { r with hashCell := some (some s) }) := by
    simp [get_branch, hhead, hslash, setHashCell, hh]
  have h1 : (Repository.branch fs r).1 = "HEAD" := by
    simp [Repository.branch, hbr, hbranch]
  have h2 : (Repository.branch fs r).2.hashCell = some (some s) := by
    simp [Repository.branch, hbr, hbranch]
  have h3 : (Repository.branch fs r).2.hashRuns = r.hashRuns := by
    simp [Repository.branch, hbr, hbranch]
  refine ⟨h1, ?_, ?_⟩
  · simp [Repository.commit_hash, h2]
  · simp [Repository.commit_hash, h2, h3]

/-- A metadata directory whose `HEAD` file holds a raw 40-character commit
hash. -/
def fsDetached : GitFS :=
  ⟨fun _ => false,
   fun p => if p == "HEAD" then some "3d158f4448b6e7ebcff704621225dac93c28f510" else none⟩

/-- An executor that fails every invocation. -/
def envNone : GitEnv := ⟨fun _ => none⟩

theorem detached_head_seeds_hash_witness :
    (Repository.branch fsDetached {}).1 = "HEAD" ∧
    (Repository.commit_hash envNone (Repository.branch fsDetached {}).2).1 =
      some "3d158f4448b6e7ebcff704621225dac93c28f510" ∧
    (Repository.commit_hash envNone (Repository.branch fsDetached {}).2).2.hashRuns =
      ({} : RepoCaches).hashRuns :=
  detached_head_seeds_hash fsDetached envNone {}
    "3d158f4448b6e7ebcff704621225dac93c28f510"
    (by decide) (by decide) (by decide) (by decide) (by decide) (by decide)

/-! ## Claim about memoization -/

theorem get_branch_frame (fs : GitFS) (r : RepoCaches) :
    (get_branch fs r).2.branchRuns = r.branchRuns ∧
    (get_branch fs r).2.branchCell = r.branchCell := by
  rcases hr : fs.readFile "HEAD" with _ | c
  · simp [get_branch, hr]
  · rcases ha : afterLastSlash c.data with _ | b
    · rcases hh : r.hashCell with _ | v <;> simp [get_branch, hr, ha, setHashCell, hh]
    · simp [get_branch, hr, ha]

/-- Claim C7: each of the six accessors is memoized — a second call on the
state left by the first call returns the identical value and leaves the
state untouched (so any number of further calls changes nothing), and one
call runs the underlying computation at most once (each run counter grows
by at most one, including when the computation failed and cached its
default or absent result). -/
theorem accessors_memoized (fs : GitFS) (env : GitEnv) (r : RepoCaches) :
    Repository.status env (Repository.status env r).2 = Repository.status env r ∧
    Repository.branch fs (Repository.branch fs r).2 = Repository.branch fs r ∧
    Repository.remote env (Repository.remote env r).2 = Repository.remote env r ∧
    Repository.state fs (Repository.state fs r).2 = Repository.state fs r ∧
    Repository.commit_hash env (Repository.commit_hash env r).2 =
      Repository.commit_hash env r ∧
    Repository.commit_tag (Repository.commit_tag r).2 = Repository.commit_tag r ∧
    (Repository.status env r).2.statusRuns ≤ r.statusRuns + 1 ∧
    (Repository.branch fs r).2.branchRuns ≤ r.branchRuns + 1 ∧
    (Repository.remote env r).2.remoteRuns ≤ r.remoteRuns + 1 ∧
    (Repository.state fs r).2.stateRuns ≤ r.stateRuns + 1 ∧
    (Repository.commit_hash env r).2.hashRuns ≤ r.hashRuns + 1 ∧
    (Repository.commit_tag r).2.tagRuns ≤ r.tagRuns + 1 := by
  refine ⟨?_, ?_, ?_, ?_, ?_, ?_, ?_, ?_, ?_, ?_, ?_, ?_⟩
  · rcases h : r.statusCell with _ | v <;> simp [Repository.status, h]
  · rcases h : r.branchCell with _ | v <;> simp [Repository.branch, h]
  · rcases h : r.remoteCell with _ | v <;> simp [Repository.remote, h]
  · rcases h : r.stateCell with _ | v <;> simp [Repository.state, h]
  · rcases h : r.hashCell with _ | v <;> simp [Repository.commit_hash, h]
  · rcases h : r.tagCell with _ | v <;> simp [Repository.commit_tag, h]
  · rcases h : r.statusCell with _ | v <;> simp [Repository.status, h]
  · rcases h : r.branchCell with _ | v <;>
      simp [Repository.branch, h, (get_branch_frame fs r).1]
  · rcases h : r.remoteCell with _ | v <;> simp [Repository.remote, h]
  · rcases h : r.stateCell with _ | v <;> simp [Repository.state, h]
  · rcases h : r.hashCell with _ | v <;> simp [Repository.commit_hash, h]
  · rcases h : r.tagCell with _ | v <;> simp [Repository.commit_tag, h]

/-! ## Claim about the remote accessor -/

theorem splitnCore_length_le (n : Nat) (sep : Char) :
    ∀ cs, (splitnCore (n + 1) sep cs).length ≤ n + 1 := by
  induction n with
  | zero =>
    intro cs
    simp [splitnCore]
  | succ m ih =>
    intro cs
    show (splitnCore (m + 2) sep cs).length ≤ m + 2
    unfold splitnCore
    rcases h : breakAtSep sep cs with _ | ⟨before, after⟩
    · simp
    · simp only [List.length_cons]
      exact Nat.succ_le_succ (ih after)

theorem splitn_length_le (s : String) : (splitn 4 '/' s).length ≤ 4 := by
  unfold splitn
  simp only [List.length_map]
  exact splitnCore_length_le 3 '/' s.data

/-- Claim C8: the remote parse splits the stdout on `/` into at most 4
parts; the remote's name is the 3rd token and its branch is the last
token; a failed invocation, an empty stdout, or fewer than 4 parts all
make the remote absent. -/
theorem get_remote_characterization (env : GitEnv) :
    (env.exec remoteArgs = none → get_remote env = none) ∧
    (∀ out, env.exec remoteArgs = some out → out = "" → get_remote env = none) ∧
    (∀ out, env.exec remoteArgs = some out → out ≠ "" →
      (splitn 4 '/' out).length ≤ 4 ∧
      ((splitn 4 '/' out).length < 4 → get_remote env = none) ∧
      ((splitn 4 '/' out).length = 4 →
        (splitn 4 '/' out).getLast? = (splitn 4 '/' out)[3]? ∧
        get_remote env =
          some ⟨(splitn 4 '/' out).getD 2 "", (splitn 4 '/' out).getD 3 ""⟩)) := by
  refine ⟨?_, ?_, ?_⟩
  · intro h
    simp [get_remote, h]
  · intro out h he
    simp [get_remote, h, he]
  · intro out h hne
    refine ⟨splitn_length_le out, ?_, ?_⟩
    · intro hlt
      rcases hsp : splitn 4 '/' out with _ | ⟨a, _ | ⟨b, _ | ⟨c, _ | ⟨d, rest⟩⟩⟩⟩
      · simp [get_remote, h, hne, hsp]
      · simp [get_remote, h, hne, hsp]
      · simp [get_remote, h, hne, hsp]
      · simp [get_remote, h, hne, hsp]
      · rw [hsp] at hlt
        simp at hlt
        omega
    · intro h4
      rcases hsp : splitn 4 '/' out with _ | ⟨a, _ | ⟨b, _ | ⟨c, _ | ⟨d, rest⟩⟩⟩⟩
      · rw [hsp] at h4
        simp at h4
      · rw [hsp] at h4
        simp at h4
      · rw [hsp] at h4
        simp at h4
      · rw [hsp] at h4
        simp at h4
      · rw [hsp] at h4
        simp only [List.length_cons] at h4
        have hrest : rest = [] := by
          have : rest.length = 0 := by omega
          exact List.length_eq_zero.mp this
        subst hrest
        constructor
        · simp
        · simp [get_remote, h, hne, hsp]

/-! ## Claim about discovery -/

/-- Claim C9: discovery examines the starting directory and each ancestor,
nearest first (here a path is its component list, deepest component first,
so ancestors are suffixes and `[]` is the filesystem root; the recursion
is structural on the list, hence terminating). A `some` result is rooted
at the nearest ancestor whose `.git` subdirectory exists, with `git_dir`
the root joined with the fixed name, and every nearer ancestor lacking the
marker; the result is `none` exactly when no ancestor up to the root has
it. -/
theorem discover_characterization (w : List String → Bool) (p : List String) :
    (∀ repo, discover w p = some repo →
      ∃ k, k ≤ p.length ∧ repo.root_dir = p.drop k ∧
        repo.git_dir = ".git" :: p.drop k ∧ w (".git" :: p.drop k) = true ∧
        ∀ j, j < k → w (".git" :: p.drop j) = false) ∧
    (discover w p = none ↔ ∀ k, k ≤ p.length → w (".git" :: p.drop k) = false) := by
  induction p with
  | nil =>
    cases hw : w [".git"] with
    | true =>
      constructor
      · intro repo hrepo
        refine ⟨0, Nat.le_refl 0, ?_, ?_, ?_, fun j hj => absurd hj (Nat.not_lt_zero j)⟩
        · simp only [discover, scan, hw, if_true] at hrepo
          cases hrepo
          rfl
        · simp only [discover, scan, hw, if_true] at hrepo
          cases hrepo
          rfl
        · exact hw
      · simp only [discover, scan, hw, if_true]
        constructor
        · intro hc
          cases hc
        · intro hall
          have h0 := hall 0 (Nat.le_refl 0)
          rw [List.drop_nil] at h0
          rw [hw] at h0
          cases h0
    | false =>
      constructor
      · intro repo hrepo
        simp only [discover, scan, hw] at hrepo
        cases hrepo
      · simp only [discover, scan, hw]
        constructor
        · intro _ k hk
          have hk0 : k = 0 := Nat.le_zero.mp hk
          subst hk0
          rw [List.drop_nil]
          exact hw
        · intro _
          simp
  | cons d t ih =>
    obtain ⟨ihsome, ihnone⟩ := ih
    cases hw : w (".git" :: d :: t) with
    | true =>
      have hdisc : discover w (d :: t) = some ⟨".git" :: d :: t, d :: t⟩ := by
        simp [discover, scan, hw]
      constructor
      · intro repo hrepo
        rw [hdisc] at hrepo
        cases hrepo
        exact ⟨0, Nat.zero_le _, rfl, rfl, hw,
          fun j hj => absurd hj (Nat.not_lt_zero j)⟩
      · rw [hdisc]
        constructor
        · intro hc
          cases hc
        · intro hall
          have h0 := hall 0 (Nat.zero_le _)
          rw [List.drop_zero] at h0
          rw [hw] at h0
          cases h0
    | false =>
      have hdisc : discover w (d :: t) = discover w t := by
        simp [discover, scan, hw]
      constructor
      · intro repo hrepo
        rw [hdisc] at hrepo
        obtain ⟨k, hk, hroot, hgit, hwk, hmin⟩ := ihsome repo hrepo
        refine ⟨k + 1, Nat.succ_le_succ hk, ?_, ?_, ?_, ?_⟩
        · simpa using hroot
        · simpa using hgit
        · simpa using hwk
        · intro j hj
          cases j with
          | zero =>
            rw [List.drop_zero]
            exact hw
          | succ i =>
            have hi := hmin i (Nat.lt_of_succ_lt_succ hj)
            simpa using hi
      · rw [hdisc, ihnone]
        constructor
        · intro hall k hk
          cases k with
          | zero =>
            rw [List.drop_zero]
            exact hw
          | succ i =>
            have hi := hall i (Nat.le_of_succ_le_succ hk)
            simpa using hi
        · intro hall i hi
          have h := hall (i + 1) (Nat.succ_le_succ hi)
          simpa using h

end Starship
